import Mathlib

/-!
Verification development for the audio-visualizer repository's metadata
resolution and caching pipeline.

Strings from the JavaScript source are modelled as `List Char`; the regex
pipelines are translated step by step into recursive functions on character
lists.  Machine integers are `Nat`/`Int`, JS floating scores are modelled as
exact rationals (`ℚ`), JS `Map` as an insertion-ordered association list,
and network effects as an explicit "world" record that supplies each fetch's
outcome.
-/

set_option maxHeartbeats 1000000

namespace AV

/-- ASCII lowercase conversion, mirroring JS `toLowerCase` on ASCII input. -/
def lowerChar (c : Char) : Char :=
  if 65 ≤ c.toNat ∧ c.toNat ≤ 90 then Char.ofNat (c.toNat + 32) else c

/-- ASCII uppercase conversion, mirroring JS `toUpperCase` on ASCII input. -/
def upperChar (c : Char) : Char :=
  if 97 ≤ c.toNat ∧ c.toNat ≤ 122 then Char.ofNat (c.toNat - 32) else c

/-- JS `toLowerCase` over a character list. -/
def jsToLower (s : List Char) : List Char := s.map lowerChar

/-- The character class matched by the regex `\s` (JS whitespace). -/
def isWsB (c : Char) : Bool :=
  decide (c.toNat = 32 ∨ c.toNat = 9 ∨ c.toNat = 10 ∨ c.toNat = 11 ∨ c.toNat = 12 ∨
    c.toNat = 13 ∨ c.toNat = 160 ∨ c.toNat = 8232 ∨ c.toNat = 8233 ∨ c.toNat = 65279)

/-- JS `String.prototype.trim`: drop whitespace from both ends. -/
def jsTrim (s : List Char) : List Char :=
  ((s.dropWhile isWsB).reverse.dropWhile isWsB).reverse

/-- Does `s` start with the character sequence `p`? (JS `startsWith`). -/
def startsWithSeq : List Char → List Char → Bool
  | [], _ => true
  | _ :: _, [] => false
  | p :: ps, c :: cs => p == c && startsWithSeq ps cs

/-- Does `s` contain `pat` as a contiguous subsequence? (JS `includes`). -/
def containsSeq (pat : List Char) : List Char → Bool
  | [] => pat.isEmpty
  | c :: cs => startsWithSeq pat (c :: cs) || containsSeq pat cs

/-- Case-insensitive match of the (lowercase) keyword `p` at the front of `s`;
returns the remainder on success. -/
def ciPrefixRest : List Char → List Char → Option (List Char)
  | [], s => some s
  | _ :: _, [] => none
  | p :: ps, c :: cs => if lowerChar c = p then ciPrefixRest ps cs else none

/-- Scan for the first `')'` (the regex `.*?\)`); fails at a line terminator,
since `.` does not match one.  Returns the remainder after the `')'`. -/
def scanClose : List Char → Option (List Char)
  | [] => none
  | c :: cs =>
    if c = ')' then some cs
    else if c.toNat = 10 ∨ c.toNat = 13 ∨ c.toNat = 8232 ∨ c.toNat = 8233 then none
    else scanClose cs

/-- One global-replace pass of the regex `\(<kw>\.?.*?\)` with the empty
string (fuelled so the definition is structural; fuel is the input length,
which bounds the number of scan positions).  After `'('` and the keyword,
`\.?.*?\)` consumes minimally up to the first `')'`; an optional `'.'` does
not change which `')'` is found, so it is absorbed by the scan. -/
def replaceParenKwFuel (kw : List Char) : Nat → List Char → List Char
  | _, [] => []
  | 0, s => s
  | fuel + 1, c :: cs =>
    if c = '(' then
      match ciPrefixRest kw cs with
      | some rest =>
        match scanClose rest with
        | some after => replaceParenKwFuel kw fuel after
        | none => c :: replaceParenKwFuel kw fuel cs
      | none => c :: replaceParenKwFuel kw fuel cs
    else c :: replaceParenKwFuel kw fuel cs

/-- `text.replace(/\(<kw>\.?.*?\)/gi, '')` for a lowercase keyword `kw`. -/
def replaceParenKw (kw : List Char) (s : List Char) : List Char :=
  replaceParenKwFuel kw s.length s

/-- The character class `[a-z0-9\s-]` kept by `.replace(/[^a-z0-9\s-]/g, '')`. -/
def allowedB (c : Char) : Bool :=
  (decide (97 ≤ c.toNat ∧ c.toNat ≤ 122) || decide (48 ≤ c.toNat ∧ c.toNat ≤ 57)) ||
    (isWsB c || decide (c = '-'))

/-- Replace every maximal run of `p`-characters by the single character `d`
(the regexes `\s+ → '-'` and `-+ → '-'`). -/
def collapseRuns (p : Char → Bool) (d : Char) : List Char → List Char
  | [] => []
  | [c] => if p c then [d] else [c]
  | c :: c' :: cs =>
    if p c then
      if p c' then collapseRuns p d (c' :: cs)
      else d :: collapseRuns p d (c' :: cs)
    else c :: collapseRuns p d (c' :: cs)

/-- Is `c` the hyphen character (the regex class `-+`)? -/
def isDashB (c : Char) : Bool := c = '-'

/-- Remove a single leading `'-'` (the `^-` alternative of `/^-|-$/g`). -/
def dropLeadDash : List Char → List Char
  | [] => []
  | c :: t => if c = '-' then t else c :: t

/-- Remove a single trailing `'-'` (the `-$` alternative of `/^-|-$/g`). -/
def dropFinalDash : List Char → List Char
  | [] => []
  | [c] => if c = '-' then [] else [c]
  | c :: c' :: cs => c :: dropFinalDash (c' :: cs)

/-- `text.replace(/^-|-$/g, '')`: at most one dash is removed from each end. -/
def stripEdgeDashes (s : List Char) : List Char :=
  dropFinalDash (dropLeadDash s)

/-- Slug normalizer from `api/song-info.js` (`normalizeForUrl`):
lowercase, trim, strip `(feat...)` and `(ft...)` annotations, drop characters
outside `[a-z0-9\s-]`, turn whitespace runs into single hyphens, collapse
hyphen runs, and trim edge hyphens. -/
def normalizeForUrl (text : List Char) : List Char :=
  stripEdgeDashes
    (collapseRuns isDashB '-'
      (collapseRuns isWsB '-'
        (List.filter allowedB
          (replaceParenKw ['f', 't']
            (replaceParenKw ['f', 'e', 'a', 't']
              (jsTrim (jsToLower text)))))))

example : normalizeForUrl "The Weeknd".toList = "the-weeknd".toList := by decide
example : normalizeForUrl "Song (feat. X)".toList = "song".toList := by decide
example : normalizeForUrl "  --a--  ".toList = "a".toList := by decide
example : normalizeForUrl "!!!".toList = "".toList := by decide

/-! ## Song metadata and the HTML extractor of `api/song-info.js` -/

/-- The uniform metadata record `{ bpm, key, genre }`. -/
structure SongMetadata where
  bpm : Option Nat
  key : Option (List Char)
  genre : Option (List Char)
  deriving DecidableEq, Repr

/-- The all-null "not found" record. -/
def allNullMeta : SongMetadata := ⟨none, none, none⟩

/-- One definition-list entry of a scraped page: the text of a `dd` element
together with the text of its preceding `dt` label. -/
structure DefEntry where
  label : List Char
  value : List Char
  deriving DecidableEq, Repr

/-- JS truthiness of a nullable number (`null` and `0` are falsy). -/
def jsTruthyNat : Option Nat → Bool
  | none => false
  | some v => v != 0

/-- JS truthiness of a nullable string (`null` and `""` are falsy). -/
def jsTruthyStr : Option (List Char) → Bool
  | none => false
  | some s => !s.isEmpty

/-- Is `c` an ASCII digit? -/
def isDigitB (c : Char) : Bool := decide (48 ≤ c.toNat ∧ c.toNat ≤ 57)

/-- Numeric value of a digit string (`parseInt` on an all-digit string). -/
def digitsVal (s : List Char) : Nat :=
  s.foldl (fun n c => 10 * n + (c.toNat - 48)) 0

/-- The regex `^\d+$` together with `parseInt`. -/
def parseAllDigits (s : List Char) : Option Nat :=
  if s ≠ [] ∧ s.all isDigitB then some (digitsVal s) else none

/-- The genre vocabulary scanned by `extractSongInfo`. -/
def genreList : List (List Char) :=
  ["pop".toList, "rock".toList, "r&b".toList, "hip hop".toList, "electronic".toList,
   "dance".toList, "jazz".toList, "classical".toList, "soul".toList, "indie".toList,
   "alternative".toList]

/-- The BPM check of one loop iteration in `extractSongInfo`: a value
matching `^\d+$` without a colon, lying in `[40, 240]`, is stored as `bpm`
unless a truthy `bpm` is already present. -/
def extractBpmStage (s : SongMetadata) (text : List Char) : SongMetadata :=
  match parseAllDigits text with
  | some v =>
    if ¬containsSeq [':'] text ∧ (40 ≤ v ∧ v ≤ 240) ∧ ¬jsTruthyNat s.bpm then
      { s with bpm := some v }
    else s
  | none => s

/-- The key check of one loop iteration in `extractSongInfo`. -/
def extractKeyStage (s : SongMetadata) (text : List Char) : SongMetadata :=
  if (containsSeq "major".toList (jsToLower text) ||
        containsSeq "minor".toList (jsToLower text)) ∧ ¬jsTruthyStr s.key then
    { s with key := some text }
  else s

/-- The genre check of one loop iteration in `extractSongInfo`. -/
def extractGenreStage (s : SongMetadata) (text : List Char) : SongMetadata :=
  if ¬jsTruthyStr s.genre ∧ genreList.any (fun g => containsSeq g (jsToLower text)) then
    { s with genre := some text }
  else s

/-- One iteration of the `ddTags.each` loop in `extractSongInfo`:
skip empty text, then run the bpm, key and genre checks in order. -/
def extractStep (s : SongMetadata) (e : DefEntry) : SongMetadata :=
  if (jsTrim e.value).isEmpty then s
  else
    extractGenreStage
      (extractKeyStage (extractBpmStage s (jsTrim e.value)) (jsTrim e.value))
      (jsTrim e.value)

/-- `extractSongInfo(html)` from `api/song-info.js`: fold the per-`dd` loop
over the document's definition entries, starting from the all-null record. -/
def extractSongInfo (doc : List DefEntry) : SongMetadata :=
  doc.foldl extractStep allNullMeta

example : (extractSongInfo [⟨"tempo".toList, "120".toList⟩]).bpm = some 120 := by decide
example : (extractSongInfo [⟨"duration".toList, "100".toList⟩]).bpm = some 100 := by decide
example : (extractSongInfo [⟨"t".toList, "300".toList⟩]).bpm = none := by decide
example : (extractSongInfo [⟨"a".toList, "100".toList⟩, ⟨"b".toList, "90".toList⟩]).bpm
    = some 100 := by decide

/-! ## The hybrid two-tier cache of `api/song-info.js` -/

/-- A fast-tier entry: the stored record plus its local timestamp. -/
structure MemEntry where
  data : SongMetadata
  timestamp : Nat
  deriving DecidableEq, Repr

/-- Cache state: the in-process `Map` (insertion-ordered association list)
and the persistent KV store (modelled as a reliable store whose TTL the
store itself enforces, so any hit is fresh). -/
structure CacheState where
  memory : List (List Char × MemEntry)
  kv : List (List Char × SongMetadata)
  deriving DecidableEq, Repr

/-- `Map.prototype.get`. -/
def mapGet {V : Type} (k : List Char) : List (List Char × V) → Option V
  | [] => none
  | (k', v) :: t => if k = k' then some v else mapGet k t

/-- `Map.prototype.set`: update in place (keeping insertion position) if the
key is present, else append. -/
def mapSet {V : Type} (k : List Char) (v : V) : List (List Char × V) → List (List Char × V)
  | [] => [(k, v)]
  | (k', v') :: t => if k = k' then (k, v) :: t else (k', v') :: mapSet k v t

/-- `Map.prototype.delete`. -/
def mapDelete {V : Type} (k : List Char) : List (List Char × V) → List (List Char × V)
  | [] => []
  | (k', v') :: t => if k = k' then t else (k', v') :: mapDelete k t

def CACHE_TTL_SECONDS : Nat := 60 * 30
def CACHE_TTL_MS : Nat := CACHE_TTL_SECONDS * 1000
def MAX_MEMORY_CACHE_SIZE : Nat := 50

/-- Which cache tier served a hit. -/
inductive CacheLayer where
  | memory
  | kv
  deriving DecidableEq, Repr

/-- The KV fallthrough of `getCache`: on a KV hit, promote the value into the
memory map (with a fresh local timestamp) with no capacity check. -/
def kvStep (key : List Char) (now : Nat) (st : CacheState) :
    Option (SongMetadata × CacheLayer) × CacheState :=
  match mapGet key st.kv with
  | some d => (some (d, CacheLayer.kv), { st with memory := mapSet key ⟨d, now⟩ st.memory })
  | none => (none, st)

/-- `getCache(key)`: memory first (deleting an expired entry and falling
through), then the KV store. -/
def getCache (key : List Char) (now : Nat) (st : CacheState) :
    Option (SongMetadata × CacheLayer) × CacheState :=
  match mapGet key st.memory with
  | some e =>
    if CACHE_TTL_MS < now - e.timestamp then
      kvStep key now { st with memory := mapDelete key st.memory }
    else (some (e.data, CacheLayer.memory), st)
  | none => kvStep key now st

/-- `setCache(key, data)` with the capacity bound as a parameter: if the
memory map is at (or beyond) the bound, evict the entry at the head of the
iteration order — the one inserted longest ago — then insert, and
write through to the KV store. -/
def setCacheAux (maxSize : Nat) (key : List Char) (data : SongMetadata) (now : Nat)
    (st : CacheState) : CacheState :=
  let mem :=
    if maxSize ≤ st.memory.length then
      match st.memory with
      | [] => ([] : List (List Char × MemEntry))
      | (k0, _) :: _ => mapDelete k0 st.memory
    else st.memory
  { memory := mapSet key ⟨data, now⟩ mem, kv := mapSet key data st.kv }

/-- `setCache` with the source's bound `MAX_MEMORY_CACHE_SIZE = 50`. -/
def setCache (key : List Char) (data : SongMetadata) (now : Nat) (st : CacheState) :
    CacheState :=
  setCacheAux MAX_MEMORY_CACHE_SIZE key data now st

/-- `getCacheKey(artist, title)`. -/
def getCacheKey (artist title : List Char) : List Char :=
  "song:".toList ++ jsToLower artist ++ [':'] ++ jsToLower title

/-! ## The resolution pipeline `fetchSongInfo` of `api/song-info.js` -/

/-- An anchor element on the artist page: its `href` attribute and text. -/
structure Link where
  href : List Char
  text : List Char
  deriving DecidableEq, Repr

/-- The network's behaviour for one `fetchSongInfo` call: each field is the
outcome of the corresponding HTTP request, `none` meaning a network error or
timeout (the promise rejects), `some (status, body)` a received response. -/
structure ScrapeWorld where
  direct : Option (Nat × List DefEntry)
  artistPage : Option (Nat × List Link)
  song : Option (Nat × List DefEntry)
  deriving DecidableEq, Repr

/-- The link scan on the artist page: `$('a[href*="/@artist/"]')`, then the
first link whose (lowercased) href or text contains the title slug. -/
def findSongUrl (artistSlug titleSlug : List Char) (links : List Link) :
    Option (List Char) :=
  (links.filter fun l =>
      containsSeq ('/' :: '@' :: (artistSlug ++ ['/'])) l.href).findSome?
    fun l =>
      if !l.href.isEmpty &&
          (containsSeq titleSlug (jsToLower l.href) || containsSeq titleSlug (jsToLower l.text)) then
        some l.href
      else none

/-- Everything observable about one `fetchSongInfo` call: the returned
record, its provenance flags, the cache state afterwards, whether the call
went past the cache to scrape, and how many `setCache` calls it made. -/
structure ResolveOut where
  result : SongMetadata
  fromCache : Bool
  layer : Option CacheLayer
  state : CacheState
  didScrape : Bool
  cacheWrites : Nat
  deriving DecidableEq, Repr

/-- The catch-all outcome of the scraper's `try` block: every thrown error is
caught and the all-null record is returned, with nothing cached. -/
def scrapeFailOut (st : CacheState) : ResolveOut :=
  ⟨allNullMeta, false, none, st, true, 0⟩

/-- The artist-page fallback inside `fetchSongInfo`'s `try` block: fetch the
artist index (default axios `validateStatus`, 2xx only), scan its links for
the title slug, fetch the found song page and extract; cache and return only
a record with a truthy `bpm`. -/
def fetchFallback (key artistSlug titleSlug : List Char)
    (ap : Option (Nat × List Link)) (sp : Option (Nat × List DefEntry)) (now : Nat)
    (st' : CacheState) : ResolveOut :=
  match ap with
  | none => scrapeFailOut st'
  | some (ast, links) =>
    if ¬(200 ≤ ast ∧ ast ≤ 299) then scrapeFailOut st'
    else if ast = 200 then
      match findSongUrl artistSlug titleSlug links with
      | some _ =>
        match sp with
        | none => scrapeFailOut st'
        | some (sst, sdoc) =>
          if ¬(200 ≤ sst ∧ sst ≤ 299) then scrapeFailOut st'
          else if jsTruthyNat (extractSongInfo sdoc).bpm then
            ⟨extractSongInfo sdoc, false, none,
              setCache key (extractSongInfo sdoc) now st', true, 1⟩
          else ⟨allNullMeta, false, none, st', true, 0⟩
      | none => ⟨allNullMeta, false, none, st', true, 0⟩
    else ⟨allNullMeta, false, none, st', true, 0⟩

/-- `fetchSongInfo(artist, title)`: hybrid cache lookup, then the direct-URL
scrape (axios `validateStatus: status < 500`), then the artist-page fallback.
`setCache` is invoked only when the extracted record has a truthy `bpm`;
every error thrown inside the `try` is swallowed and the all-null record is
returned. -/
def fetchSongInfo (artist title : List Char) (w : ScrapeWorld) (now : Nat)
    (st : CacheState) : ResolveOut :=
  match getCache (getCacheKey artist title) now st with
  | (some (d, layer), st') => ⟨d, true, some layer, st', false, 0⟩
  | (none, st') =>
    match w.direct with
    | none => scrapeFailOut st'
    | some (status, doc) =>
      if 500 ≤ status then scrapeFailOut st'
      else if status = 200 then
        if jsTruthyNat (extractSongInfo doc).bpm then
          ⟨extractSongInfo doc, false, none,
            setCache (getCacheKey artist title) (extractSongInfo doc) now st', true, 1⟩
        else
          fetchFallback (getCacheKey artist title) (normalizeForUrl artist)
            (normalizeForUrl title) w.artistPage w.song now st'
      else
        fetchFallback (getCacheKey artist title) (normalizeForUrl artist)
          (normalizeForUrl title) w.artistPage w.song now st'

/-- The `api/song-info` serverless handler for a GET request: 400 when either
query parameter is missing or empty (JS falsy), otherwise a 200 response
wrapping the resolution output.  (Its `catch` branch would produce a 500,
but `fetchSongInfo` never throws.) -/
def songInfoHandler (artist title : Option (List Char)) (w : ScrapeWorld) (now : Nat)
    (st : CacheState) : Nat × Option ResolveOut :=
  match artist, title with
  | some a, some t =>
    if a.isEmpty || t.isEmpty then (400, none)
    else (200, some (fetchSongInfo a t w now st))
  | _, _ => (400, none)

/-! ## The backend scraper `scrapeSongBPM` of `backend/routes/features.js` -/

/-- The regex `^\s*(\d{1,3})\s*$` applied to already-trimmed text. -/
def parseNum13 (s : List Char) : Option Nat :=
  if s ≠ [] ∧ s.length ≤ 3 ∧ s.all isDigitB then some (digitsVal s) else none

/-- Is `c` a letter `A`–`G` (either case)? -/
def isNoteLetter (c : Char) : Bool :=
  decide ((65 ≤ c.toNat ∧ c.toNat ≤ 71) ∨ (97 ≤ c.toNat ∧ c.toNat ≤ 103))

/-- The regex `^\s*([A-G][#b♯♭]?)\s*$/i` on already-trimmed text, followed by
`toUpperCase` on the captured group. -/
def parseKeyPat (s : List Char) : Option (List Char) :=
  match s with
  | [c] => if isNoteLetter c then some [upperChar c] else none
  | [c, m] =>
    if isNoteLetter c ∧ (m = '#' ∨ m = 'b' ∨ m = '♯' ∨ m = '♭') then
      some [upperChar c, upperChar m]
    else none
  | _ => none

/-- The key-extraction tail of one loop iteration in `scrapeSongBPM`:
overwrite `key` when the value matches the musical-key pattern and the label
contains "key". -/
def scrapeKeyUpd (key : Option (List Char)) (text labelT : List Char) :
    Option (List Char) :=
  match parseKeyPat text with
  | some kk => if containsSeq "key".toList labelT then some kk else key
  | none => key

/-- The `$('dd.text-card-foreground').each` loop of `scrapeSongBPM`: a bare
1–3 digit value whose preceding `dt` label contains "tempo" or "bpm" and
which lies in `[40, 240]` sets `bpm` and breaks; a numeric value under a
"key" label below 40 is skipped; otherwise the key pattern is checked. -/
def scrapeLoop (bpm : Option Nat) (key : Option (List Char)) :
    List DefEntry → Option Nat × Option (List Char)
  | [] => (bpm, key)
  | e :: rest =>
    let text := jsTrim e.value
    let labelT := jsToLower (jsTrim e.label)
    match parseNum13 text with
    | some v =>
      if (containsSeq "tempo".toList labelT || containsSeq "bpm".toList labelT) ∧
          (40 ≤ v ∧ v ≤ 240) then (some v, key)
      else if containsSeq "key".toList labelT ∧ v < 40 then scrapeLoop bpm key rest
      else scrapeLoop bpm (scrapeKeyUpd key text labelT) rest
    | none => scrapeLoop bpm (scrapeKeyUpd key text labelT) rest

/-- The parse-and-validate core of `scrapeSongBPM` on a fetched page: run the
loop, null out a `bpm` outside `[40, 240]`, and throw (here: `none`) when no
(truthy) `bpm` was found. -/
def scrapeSongBPMExtract (doc : List DefEntry) : Option (Nat × Option (List Char)) :=
  let r := scrapeLoop none none doc
  let b1 : Option Nat :=
    match r.1 with
    | some v => if v ≠ 0 ∧ (v < 40 ∨ 240 < v) then none else some v
    | none => none
  match b1 with
  | some v => if v ≠ 0 then some (v, r.2) else none
  | none => none

example : scrapeSongBPMExtract [⟨"Tempo".toList, "120".toList⟩] = some (120, none) := by
  decide
example : scrapeSongBPMExtract [⟨"duration".toList, "100".toList⟩] = none := by decide

/-! ## The search adapter `searchSpotifyAPI` of `backend/routes/search.js` -/

mutual

/-- Piece collector for JS `split(/\s+/)`: accumulate non-whitespace
characters, closing the current piece at a whitespace run. -/
def splitWsAux (acc : List Char) : List Char → List (List Char)
  | [] => [acc.reverse]
  | c :: cs => if isWsB c then acc.reverse :: splitWsSkip cs else splitWsAux (c :: acc) cs

/-- Whitespace-run skipper for JS `split(/\s+/)`: a run at the very end
yields a trailing empty piece, as the JS split does. -/
def splitWsSkip : List Char → List (List Char)
  | [] => [[]]
  | c :: cs => if isWsB c then splitWsSkip cs else splitWsAux [c] cs

end

/-- JS `String.prototype.split(/\s+/)`. -/
def splitWs (s : List Char) : List (List Char) := splitWsAux [] s

example : splitWs "ab cd".toList = ["ab".toList, "cd".toList] := by decide
example : splitWs " a ".toList = ["".toList, "a".toList, "".toList] := by decide

/-- A track candidate from the catalog API, with the fields the scoring
loop consumes. -/
structure Track where
  name : List Char
  artist : List Char
  id : List Char
  url : List Char
  popularity : Nat
  deriving DecidableEq, Repr

/-- The integer contributions of the scoring loop body of
`searchSpotifyAPI`: per query word of length ≥ 2, +20 for a title hit, +5
for an artist hit, +10 for a title start; +100 for exact title equality;
+30 when the title contains the whole query; +30 when popularity ≥ 80; −8
per title word of length ≥ 3 unmatched by every query word. -/
def scoreIntPart (query : List Char) (t : Track) : ℤ :=
  let queryLower := jsToLower query
  let queryWords := splitWs queryLower
  let trackTitle := jsToLower t.name
  let trackArtist := jsToLower t.artist
  let base : ℤ :=
    queryWords.foldl
      (fun acc w =>
        if 2 ≤ w.length then
          acc + (if containsSeq w trackTitle then 20 else 0) +
            (if containsSeq w trackArtist then 5 else 0) +
            (if startsWithSeq w trackTitle then 10 else 0)
        else acc)
      0
  let base := base + (if trackTitle = queryLower then 100 else 0)
  let base := base + (if containsSeq queryLower trackTitle then 30 else 0)
  let base := base + (if 80 ≤ t.popularity then 30 else 0)
  let trackWords := splitWs trackTitle
  let unmatched := trackWords.filter fun w =>
    3 ≤ w.length ∧ ¬queryWords.any fun qw => containsSeq w qw || containsSeq qw w
  base - 8 * (unmatched.length : ℤ)

/-- The source's score is `scoreIntPart + popularity / 5`, the division
taken on JS floats; `popularity / 5` is its only non-integer contribution,
so the model tracks five times the score as an exact integer.  Every
comparison the source performs on scores — against another score or against
the integer thresholds −1 and 40 — is preserved exactly by multiplying both
sides by 5. -/
def scoreTrack5 (query : List Char) (t : Track) : ℤ :=
  5 * scoreIntPart query t + (t.popularity : ℤ)

/-- The best-by-score fold of `searchSpotifyAPI`: `bestTrack` starts at
`tracks[0]`, `bestScore` at −1 (here −5, on the five-fold scale), and a
strictly greater score replaces the incumbent (ties keep the earliest). -/
def bestWithScore (query : List Char) (t0 : Track) (tracks : List Track) : Track × ℤ :=
  tracks.foldl
    (fun b t => let s := scoreTrack5 query t; if b.2 < s then (t, s) else b)
    (t0, -5)

/-- The `tracks.reduce` picking the most popular candidate (first maximum
wins, strict comparison). -/
def mostPopularTrack (t0 : Track) (rest : List Track) : Track :=
  rest.foldl (fun prev current => if prev.popularity < current.popularity then current else prev) t0

/-- The candidate-selection core of `searchSpotifyAPI` on a received result
page: score every track, then apply the low-confidence override — when the
winner has popularity < 30 and score < 40 (here 200, on the five-fold
scale), return the most popular candidate instead, but only if its
popularity is ≥ 60. -/
def searchSpotifyBestMatch (query : List Char) (tracks : List Track) : Option Track :=
  match tracks with
  | [] => none
  | t0 :: rest =>
    let bb := bestWithScore query t0 (t0 :: rest)
    if bb.1.popularity < 30 ∧ bb.2 < 200 then
      let mostPopular := mostPopularTrack t0 rest
      if 60 ≤ mostPopular.popularity then some mostPopular else some bb.1
    else some bb.1

/-! ## The serverless search endpoint of `api/search.js` -/

/-- The mapped response record built from the first track of the result
page. -/
structure SearchResult where
  title : List Char
  artist : List Char
  trackId : List Char
  spotifyUrl : List Char
  popularity : Nat
  deriving DecidableEq, Repr

/-- The world of one `searchSpotify` call: the token exchange fails, the
search request fails, or a result page arrives. -/
inductive SearchWorld where
  | authFail
  | netFail
  | ok (tracks : List Track)
  deriving DecidableEq, Repr

/-- `searchSpotify(query)` from `api/search.js`: the whole body sits in a
`try` whose `catch` returns `null`, so an auth or network failure yields
`null` exactly like an empty result page; otherwise the first track is
returned. -/
def searchSpotify (w : SearchWorld) : Option SearchResult :=
  match w with
  | SearchWorld.authFail => none
  | SearchWorld.netFail => none
  | SearchWorld.ok [] => none
  | SearchWorld.ok (t :: _) => some ⟨t.name, t.artist, t.id, t.url, t.popularity⟩

/-- The `api/search` handler for a GET request: 400 for a missing or empty
query; otherwise always a 200, carrying either the mapped result or the
"not found" placeholder (`none` here). -/
def searchHandler (query : Option (List Char)) (w : SearchWorld) :
    Nat × Option (Option SearchResult) :=
  match query with
  | none => (400, none)
  | some q => if q.isEmpty then (400, none) else (200, some (searchSpotify w))

/-- A concrete 50-entry fast tier used to instantiate the capacity claims. -/
def mem50 : List (List Char × MemEntry) :=
  (List.range 50).map fun i => ([Char.ofNat (1000 + i)], ⟨allNullMeta, 0⟩)

/-- A world in which the direct URL serves an HTML page with no usable data
and the artist-page request fails on the network. -/
def wNoData : ScrapeWorld := ⟨some (200, []), none, none⟩

/-- A world whose direct URL serves a page carrying a tempo value. -/
def wGood : ScrapeWorld := ⟨some (200, [⟨"tempo".toList, "120".toList⟩]), none, none⟩

/-- A world in which every network request fails (timeout / network error). -/
def wAllFail : ScrapeWorld := ⟨none, none, none⟩

/-- A world in which both the direct URL and the artist page return 404. -/
def wNotFound404 : ScrapeWorld := ⟨some (404, []), some (404, []), none⟩

/-- The `bpm` candidate a value text contributes: parsed by `^\d+$`, kept
only inside `[40, 240]`. -/
def valBpmCand (t : List Char) : Option Nat :=
  match parseAllDigits t with
  | some v => if 40 ≤ v ∧ v ≤ 240 then some v else none
  | none => none

/-- The `bpm` candidate an entry contributes in `extractSongInfo`: its
trimmed value's candidate — the label plays no role. -/
def entryBpmCand (e : DefEntry) : Option Nat :=
  valBpmCand (jsTrim e.value)

/-- The first bare integer in `[40, 240]` among the document's values —
with no condition whatsoever on the labels. -/
def firstBareBpm (doc : List DefEntry) : Option Nat :=
  doc.findSome? entryBpmCand

/-- Scenario candidate: matches the query well enough to win on score, but
is very obscure (popularity 5, score exactly 20). -/
def trackA : Track :=
  ⟨"ab qqq www".toList, "cdx".toList, "idA".toList, "urlA".toList, 5⟩

/-- Scenario candidate: very popular (85) but scoring below the winner. -/
def trackB : Track :=
  ⟨"eee fff ggg hhh".toList, "zzz".toList, "idB".toList, "urlB".toList, 85⟩

example : scoreTrack5 "ab cd".toList trackA = 100 := by decide
example : scoreTrack5 "ab cd".toList trackB = 75 := by decide

/-- Characters a normalized slug may contain: `a`–`z`, `0`–`9`, `'-'`. -/
def slugCharB (c : Char) : Bool :=
  decide (97 ≤ c.toNat ∧ c.toNat ≤ 122) || decide (48 ≤ c.toNat ∧ c.toNat ≤ 57) ||
    decide (c = '-')

/-- No two consecutive hyphens. -/
def NoDD (s : List Char) : Prop :=
  List.Chain' (fun a b => ¬(a = '-' ∧ b = '-')) s

/-- A fully normalized slug: slug characters only, no hyphen runs, no edge
hyphens. -/
def GoodSlug (s : List Char) : Prop :=
  s.all slugCharB = true ∧ NoDD s ∧ s.head? ≠ some '-' ∧ s.getLast? ≠ some '-'

/-! ## Association-list (JS `Map`) lemmas -/

theorem mapGet_mapSet_self {V : Type} (k : List Char) (v : V) :
    ∀ m : List (List Char × V), mapGet k (mapSet k v m) = some v := by
  intro m
  induction m with
  | nil => simp [mapGet, mapSet]
  | cons p t ih =>
    obtain ⟨k', v'⟩ := p
    by_cases h : k = k'
    · simp [mapGet, mapSet, h]
    · simp [mapGet, mapSet, h, ih]

theorem mapSet_length_of_get_none {V : Type} (k : List Char) (v : V) :
    ∀ m : List (List Char × V), mapGet k m = none → (mapSet k v m).length = m.length + 1 := by
  intro m
  induction m with
  | nil => intro _; simp [mapSet]
  | cons p t ih =>
    obtain ⟨k', v'⟩ := p
    intro h
    by_cases hk : k = k'
    · simp [mapGet, hk] at h
    · simp only [mapGet, if_neg hk] at h
      simp [mapSet, if_neg hk, ih h]

theorem mapDelete_head {V : Type} (k : List Char) (e : V) (t : List (List Char × V)) :
    mapDelete k ((k, e) :: t) = t := by
  simp [mapDelete]

/-! ## Claim C5: read-your-writes through the fast tier -/

/-- C5 — for every key `k` and metadata value `v`, `cache.set(k, v)` followed
by `cache.get(k)` within the TTL window returns the just-set value from the
memory tier (read-your-writes). -/
theorem C5_read_your_writes (k : List Char) (d : SongMetadata) (t0 t1 : Nat)
    (st : CacheState) (h : t1 - t0 ≤ CACHE_TTL_MS) :
    (getCache k t1 (setCache k d t0 st)).1 = some (d, CacheLayer.memory) := by
  have hmem : (setCache k d t0 st).memory
      = mapSet k (⟨d, t0⟩ : MemEntry) (if MAX_MEMORY_CACHE_SIZE ≤ st.memory.length then
          (match st.memory with
            | [] => ([] : List (List Char × MemEntry))
            | (k0, _) :: _ => mapDelete k0 st.memory)
        else st.memory) := rfl
  unfold getCache
  rw [hmem, mapGet_mapSet_self]
  simp only
  rw [if_neg (by omega)]

/-- Witness for C5 at a concrete key, value, clock and state. -/
theorem C5_read_your_writes_witness :
    (0 : Nat) - 0 ≤ CACHE_TTL_MS ∧
      (getCache "k".toList 0 (setCache "k".toList allNullMeta 0 ⟨[], []⟩)).1
        = some (allNullMeta, CacheLayer.memory) :=
  ⟨by decide, C5_read_your_writes "k".toList allNullMeta 0 0 ⟨[], []⟩ (by decide)⟩

/-! ## Claim C6: insertion-order eviction at capacity -/

/-- C6 — a `set` on a fast tier holding exactly the 50-entry capacity bound
evicts exactly the entry inserted longest ago (the head of the insertion
order) before inserting; and with a capacity bound of 2, inserting distinct
keys a, b, c in order leaves exactly the keys b, c in the fast tier. -/
theorem C6_capacity_eviction :
    (∀ (st : CacheState) (k : List Char) (d : SongMetadata) (now : Nat),
        st.memory.length = 50 →
          (setCache k d now st).memory = mapSet k ⟨d, now⟩ st.memory.tail) ∧
      ((setCacheAux 2 "c".toList allNullMeta 2
            (setCacheAux 2 "b".toList allNullMeta 1
              (setCacheAux 2 "a".toList allNullMeta 0 ⟨[], []⟩))).memory.map Prod.fst
          = ["b".toList, "c".toList]) := by
  constructor
  · intro st k d now hlen
    unfold setCache setCacheAux
    simp only
    rw [if_pos (by rw [hlen]; decide)]
    match hm : st.memory with
    | [] => rw [hm] at hlen; simp at hlen
    | (k0, e0) :: t => simp [mapDelete_head]
  · decide

theorem mem50_length : mem50.length = 50 := by
  simp [mem50]

/-- Witness for C6 at a concrete full fast tier. -/
theorem C6_capacity_eviction_witness :
    (CacheState.mk mem50 []).memory.length = 50 ∧
      (setCache "k".toList allNullMeta 7 ⟨mem50, []⟩).memory
        = mapSet "k".toList ⟨allNullMeta, 7⟩ (CacheState.mk mem50 []).memory.tail :=
  ⟨mem50_length, C6_capacity_eviction.1 ⟨mem50, []⟩ "k".toList allNullMeta 7 mem50_length⟩

/-! ## Claim C10: KV-promotion bypasses the capacity bound -/

/-- C10 — a `get` that misses the fast tier and hits the persistent tier
promotes the entry into the fast-tier map with no capacity check: the new
map is exactly the old map with the entry appended, one entry larger, no
eviction; in particular a promoting get on a 50-entry fast tier grows it to
51 entries, past the bound that only `set` enforces. -/
theorem C10_promotion_unbounded :
    (∀ (st : CacheState) (k : List Char) (now : Nat) (d : SongMetadata),
        mapGet k st.memory = none → mapGet k st.kv = some d →
          (getCache k now st).2.memory = mapSet k ⟨d, now⟩ st.memory ∧
            (getCache k now st).2.memory.length = st.memory.length + 1) ∧
      (getCache [Char.ofNat 99] 0
          ⟨mem50, [([Char.ofNat 99], allNullMeta)]⟩).2.memory.length = 51 := by
  constructor
  · intro st k now d hmem hkv
    unfold getCache kvStep
    rw [hmem, hkv]
    exact ⟨rfl, mapSet_length_of_get_none k _ st.memory hmem⟩
  · decide

/-- Witness for C10 at a concrete state with a fast-tier miss and a
persistent-tier hit. -/
theorem C10_promotion_unbounded_witness :
    mapGet "k".toList (CacheState.mk [] [("k".toList, allNullMeta)]).memory = none ∧
      mapGet "k".toList (CacheState.mk [] [("k".toList, allNullMeta)]).kv = some allNullMeta ∧
      (getCache "k".toList 3 ⟨[], [("k".toList, allNullMeta)]⟩).2.memory
        = mapSet "k".toList ⟨allNullMeta, 3⟩ [] ∧
      (getCache "k".toList 3 ⟨[], [("k".toList, allNullMeta)]⟩).2.memory.length = 0 + 1 :=
  ⟨by decide, by decide,
    (C10_promotion_unbounded.1 ⟨[], [("k".toList, allNullMeta)]⟩ "k".toList 3 allNullMeta
        (by decide) (by decide)).1,
    (C10_promotion_unbounded.1 ⟨[], [("k".toList, allNullMeta)]⟩ "k".toList 3 allNullMeta
        (by decide) (by decide)).2⟩

/-! ## Pipeline shape lemmas for C1 and C2 -/

theorem mapGet_setCache_memory (k : List Char) (d : SongMetadata) (now : Nat)
    (st : CacheState) :
    mapGet k (setCache k d now st).memory = some ⟨d, now⟩ := by
  unfold setCache setCacheAux
  exact mapGet_mapSet_self k (⟨d, now⟩ : MemEntry) _

theorem getCache_mem_hit (k : List Char) (now : Nat) (st : CacheState) (e : MemEntry)
    (h1 : mapGet k st.memory = some e) (h2 : now - e.timestamp ≤ CACHE_TTL_MS) :
    getCache k now st = (some (e.data, CacheLayer.memory), st) := by
  unfold getCache
  rw [h1]
  simp only
  rw [if_neg (by omega)]

/-- Every path of the fallback either returns the all-null record without
caching, or caches and returns a record with a truthy `bpm`. -/
theorem fetchFallback_cases (key artistSlug titleSlug : List Char)
    (ap : Option (Nat × List Link)) (sp : Option (Nat × List DefEntry)) (now : Nat)
    (st' : CacheState) :
    fetchFallback key artistSlug titleSlug ap sp now st'
        = ⟨allNullMeta, false, none, st', true, 0⟩ ∨
      ∃ info, jsTruthyNat info.bpm = true ∧
        fetchFallback key artistSlug titleSlug ap sp now st'
          = ⟨info, false, none, setCache key info now st', true, 1⟩ := by
  unfold fetchFallback
  rcases ap with _ | ⟨ast, links⟩
  · exact Or.inl rfl
  · simp only
    split
    · exact Or.inl rfl
    · split
      · rcases hfind : findSongUrl artistSlug titleSlug links with _ | u
        · exact Or.inl rfl
        · simp only
          rcases sp with _ | ⟨sst, sdoc⟩
          · exact Or.inl rfl
          · simp only
            split
            · exact Or.inl rfl
            · split
              · next htruthy => exact Or.inr ⟨extractSongInfo sdoc, htruthy, rfl⟩
              · exact Or.inl rfl
      · exact Or.inl rfl

/-- On a cache miss, every path of `fetchSongInfo` either returns the
all-null record without caching, or performs exactly one `setCache` of a
record with a truthy `bpm` and returns it. -/
theorem fetchSongInfo_miss_cases (a t : List Char) (w : ScrapeWorld) (now : Nat)
    (st st2 : CacheState) (hgc : getCache (getCacheKey a t) now st = (none, st2)) :
    fetchSongInfo a t w now st = ⟨allNullMeta, false, none, st2, true, 0⟩ ∨
      ∃ info, jsTruthyNat info.bpm = true ∧
        fetchSongInfo a t w now st
          = ⟨info, false, none, setCache (getCacheKey a t) info now st2, true, 1⟩ := by
  unfold fetchSongInfo
  rw [hgc]
  rcases w with ⟨dw, ap, sp⟩
  rcases dw with _ | ⟨status, doc⟩
  · exact Or.inl rfl
  · simp only
    split
    · exact Or.inl rfl
    · split
      · split
        · next htruthy => exact Or.inr ⟨extractSongInfo doc, htruthy, rfl⟩
        · exact fetchFallback_cases _ _ _ _ _ _ _
      · exact fetchFallback_cases _ _ _ _ _ _ _

/-- A resolve call performed on a state into which `setCache` just wrote the
same key is served from the memory tier within the TTL window: no scrape,
no write, the cached record returned. -/
theorem fetchSongInfo_after_set (a t : List Char) (w' : ScrapeWorld) (now now' : Nat)
    (st2 : CacheState) (info : SongMetadata) (h : now' - now ≤ CACHE_TTL_MS) :
    fetchSongInfo a t w' now' (setCache (getCacheKey a t) info now st2)
      = ⟨info, true, some CacheLayer.memory,
          setCache (getCacheKey a t) info now st2, false, 0⟩ := by
  unfold fetchSongInfo
  rw [getCache_mem_hit (getCacheKey a t) now' _ ⟨info, now⟩
    (mapGet_setCache_memory (getCacheKey a t) info now st2) (by simpa using h)]

/-! ## Claim C1: are negative results cached? -/

/-- C1 counterexample — on a cold cache, a scrape that ends in the all-null
"not found" record performs no `cache.set` at all (the claim says every
result is cached), leaves the state unchanged, and a second resolve of the
same key immediately afterwards scrapes again. -/
theorem C1_counterexample :
    (fetchSongInfo "x".toList "y".toList wNoData 0 ⟨[], []⟩).result = allNullMeta ∧
      (fetchSongInfo "x".toList "y".toList wNoData 0 ⟨[], []⟩).cacheWrites = 0 ∧
      (fetchSongInfo "x".toList "y".toList wNoData 0 ⟨[], []⟩).state = CacheState.mk [] [] ∧
      (fetchSongInfo "x".toList "y".toList wNoData 100
          (fetchSongInfo "x".toList "y".toList wNoData 0 ⟨[], []⟩).state).didScrape
        = true := by
  decide

/-- C1 amended — on a cache miss the pipeline calls `cache.set` only for a
scraper result with a truthy (non-null) `bpm`; the all-null "not found"
record is returned without any `cache.set`.  When a write does happen, a
second resolve of the same key within one TTL window is served from cache
and never scrapes. -/
theorem C1_cache_only_positive (a t : List Char) (w : ScrapeWorld) (now : Nat)
    (st : CacheState) (hmiss : (getCache (getCacheKey a t) now st).1 = none) :
    (jsTruthyNat (fetchSongInfo a t w now st).result.bpm = false →
        (fetchSongInfo a t w now st).cacheWrites = 0) ∧
      (jsTruthyNat (fetchSongInfo a t w now st).result.bpm = true →
        (fetchSongInfo a t w now st).cacheWrites = 1 ∧
          ∀ (w' : ScrapeWorld) (now' : Nat), now' - now ≤ CACHE_TTL_MS →
            (fetchSongInfo a t w' now' (fetchSongInfo a t w now st).state).fromCache = true ∧
              (fetchSongInfo a t w' now' (fetchSongInfo a t w now st).state).didScrape
                  = false ∧
              (fetchSongInfo a t w' now' (fetchSongInfo a t w now st).state).result
                = (fetchSongInfo a t w now st).result) := by
  have hgc : getCache (getCacheKey a t) now st
      = (none, (getCache (getCacheKey a t) now st).2) := by
    have h := Prod.mk.eta (p := getCache (getCacheKey a t) now st)
    rw [hmiss] at h
    exact h.symm
  rcases fetchSongInfo_miss_cases a t w now st _ hgc with heq | ⟨info, hinfo, heq⟩
  · rw [heq]
    refine ⟨fun _ => rfl, fun hcontra => ?_⟩
    simp [allNullMeta, jsTruthyNat] at hcontra
  · rw [heq]
    refine ⟨fun hcontra => ?_, fun _ => ⟨rfl, fun w' now' httl => ?_⟩⟩
    · rw [hinfo] at hcontra; cases hcontra
    · simp only
      rw [fetchSongInfo_after_set a t w' now now' _ info httl]
      exact ⟨rfl, rfl, rfl⟩

/-- Witness for C1 at a concrete cold cache and a scrape that finds a BPM. -/
theorem C1_cache_only_positive_witness :
    (getCache (getCacheKey "x".toList "y".toList) 0 ⟨[], []⟩).1 = none ∧
      jsTruthyNat (fetchSongInfo "x".toList "y".toList wGood 0 ⟨[], []⟩).result.bpm
          = true ∧
      (fetchSongInfo "x".toList "y".toList wGood 0 ⟨[], []⟩).cacheWrites = 1 ∧
      (fetchSongInfo "x".toList "y".toList wNoData 100
          (fetchSongInfo "x".toList "y".toList wGood 0 ⟨[], []⟩).state).fromCache = true :=
  ⟨by decide, by decide,
    ((C1_cache_only_positive "x".toList "y".toList wGood 0 ⟨[], []⟩ (by decide)).2
        (by decide)).1,
    (((C1_cache_only_positive "x".toList "y".toList wGood 0 ⟨[], []⟩ (by decide)).2
        (by decide)).2 wNoData 100 (by decide)).1⟩

/-! ## Claim C2: do fetch failures surface as errors? -/

/-- C2 counterexample — a network failure of every fetch produces an outcome
identical to a plain 404 "not found": the all-null record, no error, and the
HTTP handler answers 200, not 5xx.  The caller cannot distinguish the two,
so a failure never surfaces as an explicit error. -/
theorem C2_counterexample :
    fetchSongInfo "x".toList "y".toList wAllFail 0 ⟨[], []⟩
        = fetchSongInfo "x".toList "y".toList wNotFound404 0 ⟨[], []⟩ ∧
      (songInfoHandler (some "x".toList) (some "y".toList) wAllFail 0 ⟨[], []⟩).1 = 200 := by
  decide

/-- C2 amended — a network timeout or HTTP failure during scraping is caught
inside `fetchSongInfo`: the call returns the all-null record with nothing
cached, exactly as for "not found", and the handler answers 200 whenever
both parameters are present; no fetch failure surfaces as an error. -/
theorem C2_failures_swallowed :
    (∀ (a t : List Char) (w : ScrapeWorld) (now : Nat) (st : CacheState),
        (getCache (getCacheKey a t) now st).1 = none → w.direct = none →
          fetchSongInfo a t w now st
            = ⟨allNullMeta, false, none, (getCache (getCacheKey a t) now st).2, true, 0⟩) ∧
      ∀ (a t : List Char) (w : ScrapeWorld) (now : Nat) (st : CacheState),
        ¬a.isEmpty → ¬t.isEmpty → (songInfoHandler (some a) (some t) w now st).1 = 200 := by
  constructor
  · intro a t w now st hmiss hdir
    have hgc : getCache (getCacheKey a t) now st
        = (none, (getCache (getCacheKey a t) now st).2) := by
      have h := Prod.mk.eta (p := getCache (getCacheKey a t) now st)
      rw [hmiss] at h
      exact h.symm
    unfold fetchSongInfo
    rw [hgc, hdir]
    rfl
  · intro a t w now st ha ht
    unfold songInfoHandler
    simp [ha, ht]

/-! ## Extractor characterization lemmas for C3 and C4 -/

theorem exists_of_findSome?Eq {α β : Type} (f : α → Option β) (b : β) :
    ∀ l : List α, l.findSome? f = some b → ∃ a ∈ l, f a = some b := by
  intro l
  induction l with
  | nil => intro h; cases h
  | cons a l ih =>
    intro h
    rw [List.findSome?_cons] at h
    rcases hfa : f a with _ | b'
    · rw [hfa] at h
      rcases ih h with ⟨x, hx, hfx⟩
      exact ⟨x, List.mem_cons_of_mem a hx, hfx⟩
    · rw [hfa] at h
      cases h
      exact ⟨a, List.mem_cons_self a l, hfa⟩

theorem valBpmCand_range (t : List Char) (v : Nat) (h : valBpmCand t = some v) :
    40 ≤ v ∧ v ≤ 240 := by
  unfold valBpmCand at h
  rcases hp : parseAllDigits t with _ | u
  · rw [hp] at h; cases h
  · simp only [hp] at h
    by_cases hr : 40 ≤ u ∧ u ≤ 240
    · rw [if_pos hr] at h
      cases h
      exact hr
    · rw [if_neg hr] at h; cases h

theorem entryBpmCand_range (e : DefEntry) (v : Nat) (h : entryBpmCand e = some v) :
    40 ≤ v ∧ v ≤ 240 :=
  valBpmCand_range (jsTrim e.value) v h

theorem digits_no_colon : ∀ t : List Char, t.all isDigitB = true → containsSeq [':'] t = false := by
  intro t
  induction t with
  | nil => intro _; rfl
  | cons c cs ih =>
    intro h
    rw [List.all_cons, Bool.and_eq_true] at h
    have hc : ((':' : Char) == c) = false := by
      by_contra hb
      rw [Bool.not_eq_false] at hb
      have he := eq_of_beq hb
      have h1 := h.1
      rw [← he] at h1
      exact absurd h1 (by decide)
    simp [containsSeq, startsWithSeq, hc, ih h.2]

theorem extractKeyStage_bpm (s : SongMetadata) (t : List Char) :
    (extractKeyStage s t).bpm = s.bpm := by
  unfold extractKeyStage
  split <;> rfl

theorem extractGenreStage_bpm (s : SongMetadata) (t : List Char) :
    (extractGenreStage s t).bpm = s.bpm := by
  unfold extractGenreStage
  split <;> rfl

/-- The `bpm` component of the BPM stage, in closed form: a truthy `bpm` is
never overwritten; otherwise the value's candidate (when present) is
installed. -/
theorem extractBpmStage_bpm_eq (s : SongMetadata) (t : List Char) :
    (extractBpmStage s t).bpm
      = if jsTruthyNat s.bpm then s.bpm
        else match valBpmCand t with
          | some v => some v
          | none => s.bpm := by
  unfold extractBpmStage valBpmCand
  rcases hp : parseAllDigits t with _ | v
  · simp only
    split <;> rfl
  · have hdig : t.all isDigitB = true := by
      unfold parseAllDigits at hp
      split at hp
      · next hcond => exact hcond.2
      · cases hp
    have hnc := digits_no_colon t hdig
    simp only
    rcases hmt : jsTruthyNat s.bpm with _ | _
    · simp only [Bool.false_eq_true, if_false]
      by_cases hr : 40 ≤ v ∧ v ≤ 240
      · rw [if_pos ⟨by simp [hnc], hr, by simp [hmt]⟩, if_pos hr]
      · rw [if_neg (fun hcon => hr hcon.2.1), if_neg hr]
    · simp only [if_pos]
      rw [if_neg (fun hcon => hcon.2.2 (by simp [hmt]))]

/-- The `bpm` component of one extractor step, in closed form. -/
theorem extractStep_bpm_eq (s : SongMetadata) (e : DefEntry) :
    (extractStep s e).bpm
      = if jsTruthyNat s.bpm then s.bpm
        else match entryBpmCand e with
          | some v => some v
          | none => s.bpm := by
  unfold extractStep entryBpmCand
  split
  · next hemp =>
    have hnil : jsTrim e.value = [] := by
      cases hv : jsTrim e.value
      · rfl
      · rw [hv] at hemp; cases hemp
    rw [hnil]
    simp only [valBpmCand, parseAllDigits]
    simp only [ne_eq, not_true_eq_false, false_and, if_false]
    split <;> rfl
  · rw [extractGenreStage_bpm, extractKeyStage_bpm, extractBpmStage_bpm_eq]

/-- The `bpm` component of the extractor fold, in closed form. -/
theorem foldl_extract_bpm : ∀ (l : List DefEntry) (s : SongMetadata),
    (List.foldl extractStep s l).bpm
      = if jsTruthyNat s.bpm then s.bpm
        else match firstBareBpm l with
          | some v => some v
          | none => s.bpm := by
  intro l
  induction l with
  | nil =>
    intro s
    simp only [List.foldl_nil, firstBareBpm, List.findSome?_nil]
    split <;> rfl
  | cons e l ih =>
    intro s
    rw [List.foldl_cons, ih (extractStep s e)]
    have hstep := extractStep_bpm_eq s e
    rcases hmt : jsTruthyNat s.bpm with _ | _
    · rw [hmt] at hstep
      simp only [Bool.false_eq_true, if_false] at hstep ⊢
      rcases hc : entryBpmCand e with _ | v
      · rw [hc] at hstep
        rw [hstep, hmt]
        simp only [Bool.false_eq_true, if_false]
        have : firstBareBpm (e :: l) = firstBareBpm l := by
          unfold firstBareBpm
          rw [List.findSome?_cons, hc]
        rw [this]
      · rw [hc] at hstep
        have hv := entryBpmCand_range e v hc
        have htv : jsTruthyNat (extractStep s e).bpm = true := by
          rw [hstep]
          simp [jsTruthyNat]
          omega
        rw [htv]
        simp only [if_pos]
        have : firstBareBpm (e :: l) = some v := by
          unfold firstBareBpm
          rw [List.findSome?_cons, hc]
        rw [this, hstep]
    · rw [hmt] at hstep
      simp only [if_pos] at hstep ⊢
      have htv : jsTruthyNat (extractStep s e).bpm = true := by rw [hstep]; exact hmt
      rw [htv]
      simp only [if_pos]
      exact hstep

/-! ## Claim C3: is the bpm keyed on its label? -/

/-- C3 counterexample — a document whose only definition entry carries the
label "duration", which contains neither "tempo" nor "bpm", still gets its
value `100` taken as `bpm` by the extractor. -/
theorem C3_counterexample :
    (extractSongInfo [⟨"duration".toList, "100".toList⟩]).bpm = some 100 ∧
      containsSeq "tempo".toList (jsToLower (jsTrim "duration".toList)) = false ∧
      containsSeq "bpm".toList (jsToLower (jsTrim "duration".toList)) = false := by
  decide

/-- C3 amended — in the resolution pipeline's extractor (`extractSongInfo`)
a definition value is taken as `bpm` exactly when it is the first bare
integer in `[40, 240]` among the document's values, with no condition on the
preceding label; the first match wins and `bpm` is never overwritten once
set.  (The label check described by the claim exists only in the separate
backend scraper `scrapeSongBPM`.) -/
theorem C3_first_bare_integer_wins (doc : List DefEntry) :
    (extractSongInfo doc).bpm = firstBareBpm doc := by
  unfold extractSongInfo
  rw [foldl_extract_bpm doc allNullMeta]
  simp only [allNullMeta, jsTruthyNat, Bool.false_eq_true, if_false]
  split <;> simp_all

/-! ## Claim C4: bpm is always null or in range -/

/-- C4 — every `bpm` surfaced by either extractor — `extractSongInfo` in the
pipeline, or the backend scraper's parse-and-validate (`scrapeSongBPM`) —
is an integer in `[40, 240]`; out-of-range integers parsed from HTML are
never surfaced or stored. -/
theorem C4_bpm_range (doc : List DefEntry) (b : Nat) :
    ((extractSongInfo doc).bpm = some b → 40 ≤ b ∧ b ≤ 240) ∧
      ∀ k, scrapeSongBPMExtract doc = some (b, k) → 40 ≤ b ∧ b ≤ 240 := by
  constructor
  · intro h
    rw [show (extractSongInfo doc).bpm = firstBareBpm doc from by
        unfold extractSongInfo
        rw [foldl_extract_bpm doc allNullMeta]
        simp only [allNullMeta, jsTruthyNat, Bool.false_eq_true, if_false]
        split <;> simp_all] at h
    rcases exists_of_findSome?Eq entryBpmCand b doc h with ⟨e, _, he⟩
    exact entryBpmCand_range e b he
  · intro k h
    have hmain : ∃ v, ¬(v ≠ 0 ∧ (v < 40 ∨ 240 < v)) ∧ v ≠ 0 ∧ b = v := by
      simp only [scrapeSongBPMExtract] at h
      rcases hl : (scrapeLoop none none doc).1 with _ | v
      · rw [hl] at h; simp at h
      · rw [hl] at h
        simp only at h
        by_cases hc : v ≠ 0 ∧ (v < 40 ∨ 240 < v)
        · rw [if_pos hc] at h; simp at h
        · rw [if_neg hc] at h
          simp only at h
          by_cases hz : v ≠ 0
          · rw [if_pos hz] at h
            refine ⟨v, hc, hz, ?_⟩
            have h1 : (v, (scrapeLoop none none doc).2) = (b, k) := by injection h
            exact (congrArg Prod.fst h1).symm
          · rw [if_neg hz] at h; simp at h
    rcases hmain with ⟨v, hc, hz, hb⟩
    subst hb
    push_neg at hc
    have h2 := hc hz
    omega

/-! ## Claim C7: the low-confidence popularity override -/

/-- C7 — the override rule of `searchSpotifyAPI`: when the top-scored
candidate has popularity < 30 and score < 40 (200 on the five-fold scale),
the adapter returns the highest-popularity candidate instead iff that
popularity is ≥ 60, and keeps the original winner otherwise; in every other
case the top-scored candidate is returned.  In the scenario, a set whose
top-scored track has popularity 5 and score 20 (100 on the five-fold scale)
while another candidate has popularity 85 resolves to the popularity-85
candidate. -/
theorem C7_low_confidence_override :
    (∀ (q : List Char) (t0 : Track) (rest : List Track),
        ((bestWithScore q t0 (t0 :: rest)).1.popularity < 30 →
            (bestWithScore q t0 (t0 :: rest)).2 < 200 →
              searchSpotifyBestMatch q (t0 :: rest)
                = some (if 60 ≤ (mostPopularTrack t0 rest).popularity then
                    mostPopularTrack t0 rest
                  else (bestWithScore q t0 (t0 :: rest)).1)) ∧
          (¬((bestWithScore q t0 (t0 :: rest)).1.popularity < 30 ∧
                (bestWithScore q t0 (t0 :: rest)).2 < 200) →
              searchSpotifyBestMatch q (t0 :: rest)
                = some (bestWithScore q t0 (t0 :: rest)).1)) ∧
      scoreTrack5 "ab cd".toList trackA = 5 * 20 ∧
      trackA.popularity = 5 ∧ trackB.popularity = 85 ∧
      bestWithScore "ab cd".toList trackA [trackA, trackB] = (trackA, 5 * 20) ∧
      searchSpotifyBestMatch "ab cd".toList [trackA, trackB] = some trackB := by
  refine ⟨fun q t0 rest => ⟨fun h1 h2 => ?_, fun hn => ?_⟩, by decide, by decide, by decide,
    by decide, by decide⟩
  · unfold searchSpotifyBestMatch
    simp only
    rw [if_pos ⟨h1, h2⟩]
    split <;> rfl
  · unfold searchSpotifyBestMatch
    simp only
    rw [if_neg hn]

/-- Witness for C7 applying the override rule at the scenario's candidate
set. -/
theorem C7_low_confidence_override_witness :
    (bestWithScore "ab cd".toList trackA [trackA, trackB]).1.popularity < 30 ∧
      (bestWithScore "ab cd".toList trackA [trackA, trackB]).2 < 200 ∧
      searchSpotifyBestMatch "ab cd".toList [trackA, trackB]
        = some (if 60 ≤ (mostPopularTrack trackA [trackB]).popularity then
            mostPopularTrack trackA [trackB]
          else (bestWithScore "ab cd".toList trackA [trackA, trackB]).1) :=
  ⟨by decide, by decide,
    (C7_low_confidence_override.1 "ab cd".toList trackA [trackB]).1 (by decide) (by decide)⟩

/-! ## Claim C8: empty result vs. upstream failure in search -/

/-- C8 counterexample — an auth failure against the catalog produces exactly
the same handler response as an empty candidate set: status 200 with the
"not found" payload.  The failure is not propagated and not mapped to a 5xx,
so the two outcomes are not distinguishable by the caller. -/
theorem C8_counterexample :
    searchSpotify SearchWorld.authFail = none ∧
      searchSpotify SearchWorld.netFail = none ∧
      searchHandler (some "q".toList) SearchWorld.authFail
        = searchHandler (some "q".toList) (SearchWorld.ok []) ∧
      (searchHandler (some "q".toList) SearchWorld.authFail).1 = 200 := by
  decide

/-- C8 amended — `searchSpotify` catches auth and network failures and
returns `null`, exactly as for an empty candidate set; the handler answers
200 with the "not found" placeholder in all three cases, so the caller
cannot distinguish them and no 5xx is produced for catalog failures. -/
theorem C8_failures_not_distinguished (q : List Char) (w : SearchWorld)
    (hq : ¬q.isEmpty) :
    (searchHandler (some q) w).1 = 200 ∧
      (w = SearchWorld.authFail ∨ w = SearchWorld.netFail ∨ w = SearchWorld.ok [] →
        (searchHandler (some q) w).2 = some none) := by
  constructor
  · unfold searchHandler
    simp [hq]
  · intro hw
    unfold searchHandler
    simp only [hq, Bool.false_eq_true, if_false]
    rcases hw with h | h | h <;> rw [h] <;> rfl

/-- Witness for C8 at a concrete query and the auth-failure world. -/
theorem C8_failures_not_distinguished_witness :
    (searchHandler (some "q".toList) SearchWorld.authFail).1 = 200 ∧
      (searchHandler (some "q".toList) SearchWorld.authFail).2 = some none :=
  ⟨(C8_failures_not_distinguished "q".toList SearchWorld.authFail (by decide)).1,
    (C8_failures_not_distinguished "q".toList SearchWorld.authFail (by decide)).2
      (Or.inl rfl)⟩

/-- Witness for C4: a concrete page carrying the tempo value 120 through
both extractors. -/
theorem C4_bpm_range_witness :
    (extractSongInfo [⟨"tempo".toList, "120".toList⟩]).bpm = some 120 ∧
      scrapeSongBPMExtract [⟨"tempo".toList, "120".toList⟩] = some (120, none) ∧
      (40 ≤ 120 ∧ 120 ≤ 240) ∧ (40 ≤ 120 ∧ 120 ≤ 240) :=
  ⟨by decide, by decide,
    (C4_bpm_range [⟨"tempo".toList, "120".toList⟩] 120).1 (by decide),
    (C4_bpm_range [⟨"tempo".toList, "120".toList⟩] 120).2 none (by decide)⟩
theorem C2_failures_swallowed_witness :
    (getCache (getCacheKey "x".toList "y".toList) 0 ⟨[], []⟩).1 = none ∧
      wAllFail.direct = none ∧
      fetchSongInfo "x".toList "y".toList wAllFail 0 ⟨[], []⟩
        = ⟨allNullMeta, false, none,
            (getCache (getCacheKey "x".toList "y".toList) 0 ⟨[], []⟩).2, true, 0⟩ ∧
      (songInfoHandler (some "x".toList) (some "y".toList) wAllFail 0 ⟨[], []⟩).1 = 200 :=
  ⟨by decide, rfl,
    C2_failures_swallowed.1 "x".toList "y".toList wAllFail 0 ⟨[], []⟩ (by decide) rfl,
    C2_failures_swallowed.2 "x".toList "y".toList wAllFail 0 ⟨[], []⟩ (by decide) (by decide)⟩

/-! ## Claim C9: idempotence of the slug normalizer -/

theorem slugChar_cases (c : Char) (h : slugCharB c = true) :
    (97 ≤ c.toNat ∧ c.toNat ≤ 122) ∨ (48 ≤ c.toNat ∧ c.toNat ≤ 57) ∨ c = '-' := by
  simp only [slugCharB, Bool.or_eq_true, decide_eq_true_eq] at h
  tauto

theorem lowerChar_slug_id (c : Char) (h : slugCharB c = true) : lowerChar c = c := by
  rcases slugChar_cases c h with h1 | h1 | h1
  · unfold lowerChar; rw [if_neg (by omega)]
  · unfold lowerChar; rw [if_neg (by omega)]
  · subst h1; decide

theorem slug_not_ws (c : Char) (h : slugCharB c = true) : isWsB c = false := by
  rcases slugChar_cases c h with h1 | h1 | h1
  · simp only [isWsB, decide_eq_false_iff_not]; omega
  · simp only [isWsB, decide_eq_false_iff_not]; omega
  · subst h1; decide

theorem slug_ne_paren (c : Char) (h : slugCharB c = true) : c ≠ '(' := by
  rcases slugChar_cases c h with h1 | h1 | h1
  · intro he; subst he; exact absurd h1 (by decide)
  · intro he; subst he; exact absurd h1 (by decide)
  · subst h1; decide

theorem slug_allowed (c : Char) (h : slugCharB c = true) : allowedB c = true := by
  rcases slugChar_cases c h with h1 | h1 | h1
  · simp only [allowedB, Bool.or_eq_true, decide_eq_true_eq]; tauto
  · simp only [allowedB, Bool.or_eq_true, decide_eq_true_eq]; tauto
  · subst h1; decide

theorem all_weaken (f g : Char → Bool) (himp : ∀ c, f c = true → g c = true) :
    ∀ l : List Char, l.all f = true → l.all g = true := by
  intro l hl
  exact List.all_eq_true.mpr fun c hc => himp c (List.all_eq_true.mp hl c hc)

theorem map_lower_slug_id : ∀ s : List Char, s.all slugCharB = true →
    List.map lowerChar s = s := by
  intro s
  induction s with
  | nil => intro _; rfl
  | cons c t ih =>
    intro h
    rw [List.all_cons, Bool.and_eq_true] at h
    rw [List.map_cons, lowerChar_slug_id c h.1, ih h.2]

theorem jsToLower_slug_id (s : List Char) (h : s.all slugCharB = true) :
    jsToLower s = s :=
  map_lower_slug_id s h

theorem dropWhile_all_neg (p : Char → Bool) :
    ∀ s : List Char, (∀ c ∈ s, p c = false) → s.dropWhile p = s := by
  intro s h
  cases s with
  | nil => rfl
  | cons c t =>
    rw [List.dropWhile_cons, h c (List.mem_cons_self c t)]
    simp

theorem jsTrim_slug_id (s : List Char) (h : s.all slugCharB = true) : jsTrim s = s := by
  have hall : ∀ c ∈ s, isWsB c = false :=
    fun c hc => slug_not_ws c (List.all_eq_true.mp h c hc)
  unfold jsTrim
  rw [dropWhile_all_neg isWsB s hall,
    dropWhile_all_neg isWsB s.reverse (fun c hc => hall c (List.mem_reverse.mp hc)),
    List.reverse_reverse]

theorem replaceParenKwFuel_no_paren (kw : List Char) :
    ∀ (fuel : Nat) (s : List Char), (∀ c ∈ s, c ≠ '(') →
      replaceParenKwFuel kw fuel s = s := by
  intro fuel
  induction fuel with
  | zero =>
    intro s _
    cases s with
    | nil => rfl
    | cons c t => rfl
  | succ n ih =>
    intro s h
    cases s with
    | nil => rfl
    | cons c t =>
      unfold replaceParenKwFuel
      rw [if_neg (h c (List.mem_cons_self c t)),
        ih t (fun x hx => h x (List.mem_cons_of_mem c hx))]

theorem replaceParenKw_slug_id (kw s : List Char) (h : s.all slugCharB = true) :
    replaceParenKw kw s = s :=
  replaceParenKwFuel_no_paren kw s.length s
    (fun c hc => slug_ne_paren c (List.all_eq_true.mp h c hc))

theorem filter_slug_id (s : List Char) (h : s.all slugCharB = true) :
    s.filter allowedB = s :=
  List.filter_eq_self.mpr fun c hc => slug_allowed c (List.all_eq_true.mp h c hc)

theorem collapseRuns_no_p_id (p : Char → Bool) (d : Char) :
    ∀ s : List Char, (∀ c ∈ s, p c = false) → collapseRuns p d s = s
  | [] => fun _ => rfl
  | [c] => fun h => by
    simp [collapseRuns, h c (List.mem_cons_self c [])]
  | c :: c' :: t => fun h => by
    have hc : p c = false := h c (List.mem_cons_self c (c' :: t))
    simp only [collapseRuns, hc, Bool.false_eq_true, if_false]
    rw [collapseRuns_no_p_id p d (c' :: t) (fun x hx => h x (List.mem_cons_of_mem c hx))]

theorem collapseRuns_ws_slug_id (s : List Char) (h : s.all slugCharB = true) :
    collapseRuns isWsB '-' s = s :=
  collapseRuns_no_p_id isWsB '-' s
    (fun c hc => slug_not_ws c (List.all_eq_true.mp h c hc))

theorem collapseRuns_dash_id : ∀ s : List Char, NoDD s → collapseRuns isDashB '-' s = s
  | [] => fun _ => rfl
  | [c] => fun _ => by
    by_cases hc : c = '-'
    · subst hc; simp [collapseRuns, isDashB]
    · simp [collapseRuns, isDashB, hc]
  | c :: c' :: t => fun h => by
    rw [NoDD, List.chain'_cons] at h
    by_cases hc : c = '-'
    · have hc' : ¬(c' = '-') := fun h2 => h.1 ⟨hc, h2⟩
      subst hc
      simp only [collapseRuns, isDashB, decide_True, if_true, hc', decide_False,
        Bool.false_eq_true, if_false]
      rw [collapseRuns_dash_id (c' :: t) h.2]
    · simp only [collapseRuns, isDashB, hc, decide_False, Bool.false_eq_true, if_false]
      rw [collapseRuns_dash_id (c' :: t) h.2]

theorem dropLeadDash_id (s : List Char) (h : s.head? ≠ some '-') :
    dropLeadDash s = s := by
  cases s with
  | nil => rfl
  | cons c t =>
    have hc : c ≠ '-' := fun he => h (by rw [List.head?_cons, he])
    simp [dropLeadDash, hc]

theorem dropFinalDash_id : ∀ s : List Char, s.getLast? ≠ some '-' → dropFinalDash s = s
  | [] => fun _ => rfl
  | [c] => fun h => by
    have hc : c ≠ '-' := fun he => h (by rw [he]; rfl)
    simp [dropFinalDash, hc]
  | a :: b :: t => fun h => by
    have h2 : (b :: t).getLast? ≠ some '-' := by
      rwa [List.getLast?_cons_cons] at h
    simp only [dropFinalDash]
    rw [dropFinalDash_id (b :: t) h2]

theorem stripEdgeDashes_id (s : List Char) (h1 : s.head? ≠ some '-')
    (h2 : s.getLast? ≠ some '-') : stripEdgeDashes s = s := by
  unfold stripEdgeDashes
  rw [dropLeadDash_id s h1, dropFinalDash_id s h2]

/-- Every stage of the normalizer is the identity on a fully normalized
slug. -/
theorem normalize_id_of_good (s : List Char) (h : GoodSlug s) :
    normalizeForUrl s = s := by
  obtain ⟨hall, hdd, hhead, hlast⟩ := h
  unfold normalizeForUrl
  rw [jsToLower_slug_id s hall, jsTrim_slug_id s hall, replaceParenKw_slug_id _ s hall,
    replaceParenKw_slug_id _ s hall, filter_slug_id s hall, collapseRuns_ws_slug_id s hall,
    collapseRuns_dash_id s hdd, stripEdgeDashes_id s hhead hlast]

theorem all_filter_self (p : Char → Bool) (l : List Char) : (l.filter p).all p = true :=
  List.all_eq_true.mpr fun _ hc => List.of_mem_filter hc

theorem allowed_imp_slug_or_ws (c : Char) (h : allowedB c = true) :
    (slugCharB c || isWsB c) = true := by
  simp only [allowedB, Bool.or_eq_true, decide_eq_true_eq] at h
  simp only [slugCharB, Bool.or_eq_true, decide_eq_true_eq]
  tauto

theorem collapseRuns_all (p : Char → Bool) (d : Char) (q : Char → Bool) (hd : q d = true) :
    ∀ l : List Char, l.all (fun c => q c || p c) = true → (collapseRuns p d l).all q = true
  | [] => fun _ => rfl
  | [c] => fun h => by
    simp only [List.all_cons, List.all_nil, Bool.and_true] at h
    by_cases hp : p c = true
    · simp [collapseRuns, hp, hd]
    · have hq : q c = true := by
        rcases Bool.or_eq_true_iff.mp h with h1 | h1
        · exact h1
        · exact absurd h1 hp
      simp [collapseRuns, hp, hq]
  | c :: c' :: t => fun h => by
    simp only [List.all_cons, Bool.and_eq_true] at h
    have ht : (c' :: t).all (fun c => q c || p c) = true := by
      simp only [List.all_cons, Bool.and_eq_true]
      exact h.2
    by_cases hp : p c = true
    · by_cases hp' : p c' = true
      · simp only [collapseRuns, hp, hp', if_true]
        exact collapseRuns_all p d q hd (c' :: t) ht
      · simp only [collapseRuns, hp, hp', Bool.false_eq_true, if_true, if_false,
          List.all_cons, Bool.and_eq_true]
        exact ⟨hd, collapseRuns_all p d q hd (c' :: t) ht⟩
    · have hq : q c = true := by
        rcases Bool.or_eq_true_iff.mp h.1 with h1 | h1
        · exact h1
        · exact absurd h1 hp
      simp only [collapseRuns, hp, Bool.false_eq_true, if_false, List.all_cons,
        Bool.and_eq_true]
      exact ⟨hq, collapseRuns_all p d q hd (c' :: t) ht⟩

theorem collapseRuns_head_not_p (p : Char → Bool) (d c : Char) (t : List Char)
    (hc : p c = false) : ∃ r, collapseRuns p d (c :: t) = c :: r := by
  cases t with
  | nil => exact ⟨[], by simp [collapseRuns, hc]⟩
  | cons c' t' => exact ⟨collapseRuns p d (c' :: t'), by simp [collapseRuns, hc]⟩

theorem noDD_cons_of_ne (c : Char) (X : List Char) (hc : c ≠ '-') (h : NoDD X) :
    NoDD (c :: X) := by
  cases X with
  | nil => simp [NoDD]
  | cons x xs =>
    rw [NoDD, List.chain'_cons]
    exact ⟨fun hcon => hc hcon.1, h⟩

theorem noDD_collapseRuns_dash : ∀ l : List Char, NoDD (collapseRuns isDashB '-' l)
  | [] => by simp [collapseRuns, NoDD]
  | [c] => by
    by_cases hc : isDashB c = true
    · simp only [collapseRuns, hc, if_true]
      exact List.chain'_singleton '-'
    · simp only [collapseRuns, hc, Bool.false_eq_true, if_false]
      exact List.chain'_singleton c
  | c :: c' :: t => by
    by_cases hc : isDashB c = true
    · by_cases hc' : isDashB c' = true
      · simp only [collapseRuns, hc, hc', if_true]
        exact noDD_collapseRuns_dash (c' :: t)
      · obtain ⟨r, hr⟩ := collapseRuns_head_not_p isDashB '-' c' t (by
          cases hb : isDashB c' with
          | false => rfl
          | true => exact absurd hb hc')
        simp only [collapseRuns, hc, hc', if_true, Bool.false_eq_true, if_false]
        rw [hr]
        rw [NoDD, List.chain'_cons]
        refine ⟨fun hcon => ?_, ?_⟩
        · have : c' ≠ '-' := by
            intro he
            exact hc' (by simp [isDashB, he])
          exact this hcon.2
        · rw [← hr]
          exact noDD_collapseRuns_dash (c' :: t)
    · have hcne : c ≠ '-' := by
        intro he
        exact absurd (by simp [isDashB, he]) hc
      simp only [collapseRuns, hc, Bool.false_eq_true, if_false]
      exact noDD_cons_of_ne c _ hcne (noDD_collapseRuns_dash (c' :: t))

theorem noDD_tail (c : Char) (t : List Char) (h : NoDD (c :: t)) : NoDD t := by
  cases t with
  | nil => simp [NoDD]
  | cons x xs =>
    rw [NoDD, List.chain'_cons] at h
    exact h.2

theorem dropLeadDash_all (q : Char → Bool) (s : List Char) (h : s.all q = true) :
    (dropLeadDash s).all q = true := by
  cases s with
  | nil => rfl
  | cons c t =>
    rw [List.all_cons, Bool.and_eq_true] at h
    by_cases hc : c = '-'
    · simp only [dropLeadDash, hc, if_true]
      exact h.2
    · simp only [dropLeadDash, hc, if_false, List.all_cons, Bool.and_eq_true]
      exact h

theorem dropLeadDash_noDD (s : List Char) (h : NoDD s) : NoDD (dropLeadDash s) := by
  cases s with
  | nil => simp [dropLeadDash, NoDD]
  | cons c t =>
    by_cases hc : c = '-'
    · simp only [dropLeadDash, hc, if_true]
      exact noDD_tail c t h
    · simp only [dropLeadDash, hc, if_false]
      exact h

theorem dropLeadDash_head (s : List Char) (h : NoDD s) :
    (dropLeadDash s).head? ≠ some '-' := by
  cases s with
  | nil => simp [dropLeadDash]
  | cons c t =>
    by_cases hc : c = '-'
    · subst hc
      simp only [dropLeadDash, if_true]
      cases t with
      | nil => simp
      | cons x xs =>
        rw [NoDD, List.chain'_cons] at h
        have hx : x ≠ '-' := fun he => h.1 ⟨rfl, he⟩
        rw [List.head?_cons]
        intro he
        exact hx (Option.some.inj he)
    · simp only [dropLeadDash, hc, if_false, List.head?_cons]
      intro he
      exact hc (Option.some.inj he)

theorem dropFinalDash_all (q : Char → Bool) :
    ∀ s : List Char, s.all q = true → (dropFinalDash s).all q = true
  | [] => fun _ => rfl
  | [c] => fun h => by
    by_cases hc : c = '-'
    · simp [dropFinalDash, hc]
    · simp only [dropFinalDash, hc, if_false]
      exact h
  | a :: b :: t => fun h => by
    rw [List.all_cons, Bool.and_eq_true] at h
    simp only [dropFinalDash, List.all_cons, Bool.and_eq_true]
    exact ⟨h.1, dropFinalDash_all q (b :: t) h.2⟩

theorem dropFinalDash_head_shape (b : Char) (t : List Char) :
    dropFinalDash (b :: t) = [] ∨ ∃ r, dropFinalDash (b :: t) = b :: r := by
  cases t with
  | nil =>
    by_cases hb : b = '-'
    · left; simp [dropFinalDash, hb]
    · right; exact ⟨[], by simp [dropFinalDash, hb]⟩
  | cons c t' => right; exact ⟨dropFinalDash (c :: t'), by simp [dropFinalDash]⟩

theorem dropFinalDash_nil_shape (b : Char) (t : List Char)
    (h : dropFinalDash (b :: t) = []) : b = '-' ∧ t = [] := by
  cases t with
  | nil =>
    by_cases hb : b = '-'
    · exact ⟨hb, rfl⟩
    · simp [dropFinalDash, hb] at h
  | cons c t' => simp [dropFinalDash] at h

theorem dropFinalDash_noDD : ∀ s : List Char, NoDD s → NoDD (dropFinalDash s)
  | [] => fun _ => by simp [dropFinalDash, NoDD]
  | [c] => fun _ => by
    by_cases hc : c = '-'
    · simp [dropFinalDash, hc, NoDD]
    · simp only [dropFinalDash, hc, if_false]
      exact List.chain'_singleton c
  | a :: b :: t => fun h => by
    rw [NoDD, List.chain'_cons] at h
    have hrec := dropFinalDash_noDD (b :: t) h.2
    simp only [dropFinalDash]
    rcases dropFinalDash_head_shape b t with hX | ⟨r, hX⟩
    · rw [hX]
      exact List.chain'_singleton a
    · rw [hX]
      rw [hX] at hrec
      rw [NoDD, List.chain'_cons]
      exact ⟨fun hcon => h.1 hcon, hrec⟩

theorem dropFinalDash_head (s : List Char) (h : s.head? ≠ some '-') :
    (dropFinalDash s).head? ≠ some '-' := by
  cases s with
  | nil => simp [dropFinalDash]
  | cons c t =>
    rw [List.head?_cons] at h
    cases t with
    | nil =>
      by_cases hc : c = '-'
      · simp [dropFinalDash, hc]
      · simp only [dropFinalDash, hc, if_false, List.head?_cons]
        exact h
    | cons b t' =>
      simp only [dropFinalDash, List.head?_cons]
      exact h

theorem dropFinalDash_last : ∀ s : List Char, NoDD s →
    (dropFinalDash s).getLast? ≠ some '-'
  | [] => fun _ => by simp [dropFinalDash]
  | [c] => fun _ => by
    by_cases hc : c = '-'
    · simp [dropFinalDash, hc]
    · simp only [dropFinalDash, hc, if_false]
      intro he
      rw [List.getLast?_singleton] at he
      exact hc (Option.some.inj he)
  | a :: b :: t => fun h => by
    rw [NoDD, List.chain'_cons] at h
    simp only [dropFinalDash]
    rcases dropFinalDash_head_shape b t with hX | ⟨r, hX⟩
    · rw [hX]
      have hbt := dropFinalDash_nil_shape b t hX
      have ha : a ≠ '-' := fun hae => h.1 ⟨hae, hbt.1⟩
      intro he
      rw [List.getLast?_singleton] at he
      exact ha (Option.some.inj he)
    · rw [hX, List.getLast?_cons_cons, ← hX]
      exact dropFinalDash_last (b :: t) h.2

theorem stripEdgeDashes_good (s : List Char) (hall : s.all slugCharB = true)
    (hdd : NoDD s) : GoodSlug (stripEdgeDashes s) := by
  unfold stripEdgeDashes
  have h1 := dropLeadDash_all slugCharB s hall
  have h2 := dropLeadDash_noDD s hdd
  have h3 := dropLeadDash_head s hdd
  exact ⟨dropFinalDash_all slugCharB _ h1, dropFinalDash_noDD _ h2,
    dropFinalDash_head _ h3, dropFinalDash_last _ h2⟩

/-- The output of the normalizer is always a fully normalized slug. -/
theorem goodSlug_normalize (s : List Char) : GoodSlug (normalizeForUrl s) := by
  unfold normalizeForUrl
  apply stripEdgeDashes_good
  · apply collapseRuns_all isDashB '-' slugCharB (by decide)
    apply all_weaken slugCharB (fun c => slugCharB c || isDashB c)
      (fun c hc => by simp [hc])
    apply collapseRuns_all isWsB '-' slugCharB (by decide)
    apply all_weaken allowedB (fun c => slugCharB c || isWsB c) allowed_imp_slug_or_ws
    exact all_filter_self allowedB _
  · exact noDD_collapseRuns_dash _

/-- C9 — the slug normalizer is idempotent: applying `normalizeForUrl` to
its own output returns that output unchanged, for every input text. -/
theorem C9_normalizeForUrl_idempotent (s : List Char) :
    normalizeForUrl (normalizeForUrl s) = normalizeForUrl s :=
  normalize_id_of_good (normalizeForUrl s) (goodSlug_normalize s)

end AV
